import Mathlib

/-!
Verification of the `RunLogger` execution-order tracker from
`src/tracing-examples/rest/rest.ipynb` (the only algorithmic component of the
repository, called `RunOrderTracker` in the specification).

The Python class keeps two dictionaries:
  * `_run_map : run_id -> int` — the counter table holding the last
    execution order recorded at each run id;
  * `_parents : run_id -> run_id` — the parent linkage recorded by `begin`.

We embed the dictionaries as association lists with dict-style overwrite
(`setKey`) and removal (`delKey`), and translate the two methods
`_get_execution_order` (begin) and `_update_execution_order` (end) directly.
Python exceptions (`KeyError` from `self._run_map[...]`) are modelled by an
explicit error value carrying the raised key and the dictionary state at the
moment of the raise (mutations performed before the raise persist, as in
Python).
-/

/-- Run identifiers are opaque strings in the source (`uuid` hex strings). -/
abbrev RunId := String

/-- The mutable state of a `RunLogger` instance: the counter table
`_run_map` and the parent table `_parents`, both initialised empty in
`RunLogger.__init__`. -/
structure RunLogger where
  run_map : List (RunId × Nat)
  parents : List (RunId × RunId)
deriving DecidableEq

/-- The state produced by `RunLogger.__init__`: both dictionaries empty. -/
def RunLogger.init : RunLogger := ⟨[], []⟩

/-- Dictionary read: first binding of the key, `none` when absent
(`dict.get` / `dict[...]` semantics; states built by the operations keep
keys unique). -/
def alookup {β : Type} : List (RunId × β) → RunId → Option β
  | [], _ => none
  | (k', v) :: rest, k => if k' = k then some v else alookup rest k

/-- Dictionary write `d[k] = v`: overwrite in place if present, else append. -/
def setKey {β : Type} : List (RunId × β) → RunId → β → List (RunId × β)
  | [], k, v => [(k, v)]
  | (k', v') :: rest, k, v =>
      if k' = k then (k, v) :: rest else (k', v') :: setKey rest k v

/-- Dictionary removal `d.pop(k, None)`: drop the first binding of `k`. -/
def delKey {β : Type} : List (RunId × β) → RunId → List (RunId × β)
  | [], _ => []
  | (k', v') :: rest, k =>
      if k' = k then rest else (k', v') :: delKey rest k

/-- Embedding of `RunLogger._get_execution_order(run_id, parent_run_id)`
(the `begin` operation of the spec).  Python source:

    if parent_run_id:
        self._parents[run_id] = parent_run_id
        execution_order = self._run_map.get(parent_run_id, 0)
        execution_order += 1
        self._run_map[parent_run_id] = execution_order
    else:
        execution_order = 1
    self._run_map[run_id] = execution_order
    return execution_order

`if parent_run_id:` is Python truthiness: `None` and the empty string take
the `else` branch. -/
def getExecOrder (st : RunLogger) (run_id : RunId) (parent_run_id : Option RunId) :
    RunLogger × Nat :=
  match parent_run_id with
  | some p =>
      if p = "" then
        ({ st with run_map := setKey st.run_map run_id 1 }, 1)
      else
        let parents1 := setKey st.parents run_id p
        let eo := (alookup st.run_map p).getD 0 + 1
        ({ run_map := setKey (setKey st.run_map p eo) run_id eo,
           parents := parents1 }, eo)
  | none => ({ st with run_map := setKey st.run_map run_id 1 }, 1)

/-- A Python `KeyError` raised by `self._run_map[...]`: the missing key and
the dictionary state at the moment of the raise (earlier mutations of the
call persist, as in Python). -/
structure KeyError where
  key : RunId
  state : RunLogger
deriving DecidableEq

/-- Embedding of `RunLogger._update_execution_order(run_id)`
(the `end` operation of the spec).  Python source:

    exec_order = self._run_map[run_id]
    parent_run_id = self._parents.pop(run_id, None)
    if parent_run_id:
        self._run_map[parent_run_id] = max(exec_order, self._run_map[parent_run_id])

The first line raises `KeyError(run_id)` when `run_id` is not in the counter
table; the last line raises `KeyError(parent_run_id)` when the recorded
parent has no counter entry (after the pop already happened). -/
def updateExecOrder (st : RunLogger) (run_id : RunId) :
    Except KeyError RunLogger :=
  match alookup st.run_map run_id with
  | none => .error ⟨run_id, st⟩
  | some exec_order =>
    let popped := alookup st.parents run_id
    let parents1 := delKey st.parents run_id
    match popped with
    | some p =>
        if p = "" then .ok { st with parents := parents1 }
        else
          match alookup st.run_map p with
          | none => .error ⟨p, { st with parents := parents1 }⟩
          | some cur =>
              .ok { run_map := setKey st.run_map p (max exec_order cur),
                    parents := parents1 }
    | none => .ok { st with parents := parents1 }

/-- One call to the tracker: `beginRun` is `_get_execution_order` (invoked by
`post_run`), `endRun` is `_update_execution_order` (invoked by `patch_run`). -/
inductive Op where
  | beginRun (run_id : RunId) (parent_run_id : Option RunId)
  | endRun (run_id : RunId)
deriving DecidableEq

/-- State after one call, discarding the returned order; on an exception the
dictionaries keep the mutations performed before the raise. -/
def runOp (st : RunLogger) : Op → RunLogger
  | .beginRun r par => (getExecOrder st r par).1
  | .endRun r =>
      match updateExecOrder st r with
      | .ok st1 => st1
      | .error e => e.state

/-- State after a sequence of calls. -/
def runOps (st : RunLogger) : List Op → RunLogger
  | [] => st
  | op :: rest => runOps (runOp st op) rest

/-- Perform a `begin` for each listed child id, all under the same parent,
consecutively; returns the final state and the returned orders in call
order. -/
def beginAll (st : RunLogger) (p : RunId) : List RunId → RunLogger × List Nat
  | [] => (st, [])
  | c :: cs =>
      let r := getExecOrder st c (some p)
      let rest := beginAll r.1 p cs
      (rest.1, r.2 :: rest.2)

/-- `countUp s n = [s, s+1, ..., s+n-1]`; `countUp 1 n` is the list of the
positive integers `1..n` in order. -/
def countUp (s : Nat) : Nat → List Nat
  | 0 => []
  | n + 1 => s :: countUp (s + 1) n

/-- The run id an operation is invoked for. -/
def opRunId : Op → RunId
  | .beginRun r _ => r
  | .endRun r => r

/-- The direct parent relevant to an operation in state `st`: for a `begin`
the passed `parent_run_id`, for an `end` the parent recorded for the run. -/
def opParent (st : RunLogger) : Op → Option RunId
  | .beginRun _ par => par
  | .endRun r => alookup st.parents r

theorem alookup_setKey_self {β : Type} (m : List (RunId × β)) (k : RunId) (v : β) :
    alookup (setKey m k v) k = some v := by
  induction m with
  | nil => simp [setKey, alookup]
  | cons hd tl ih =>
    obtain ⟨k', v'⟩ := hd
    by_cases h : k' = k
    · simp [setKey, h, alookup]
    · simp [setKey, h, alookup, ih]

theorem alookup_setKey_ne {β : Type} (m : List (RunId × β)) (k q : RunId) (v : β)
    (h : q ≠ k) : alookup (setKey m k v) q = alookup m q := by
  induction m with
  | nil => simp [setKey, alookup, Ne.symm h]
  | cons hd tl ih =>
    obtain ⟨k', v'⟩ := hd
    by_cases h2 : k' = k
    · simp [setKey, h2, alookup, Ne.symm h]
    · simp [setKey, h2, alookup, ih]

theorem delKey_eq_of_alookup_none {β : Type} (m : List (RunId × β)) (k : RunId)
    (h : alookup m k = none) : delKey m k = m := by
  induction m with
  | nil => simp [delKey]
  | cons hd tl ih =>
    obtain ⟨k', v'⟩ := hd
    by_cases h2 : k' = k
    · simp [alookup, h2] at h
    · simp only [alookup, h2, if_neg h2] at h
      simp [delKey, h2, ih h]

theorem alookup_eq_none_of_not_mem {β : Type} (m : List (RunId × β)) (k : RunId)
    (h : k ∉ m.map Prod.fst) : alookup m k = none := by
  induction m with
  | nil => simp [alookup]
  | cons hd tl ih =>
    obtain ⟨k', v'⟩ := hd
    simp only [List.map_cons, List.mem_cons, not_or] at h
    simp [alookup, Ne.symm h.1, ih h.2]

theorem alookup_delKey_eq_none {β : Type} (m : List (RunId × β)) (k : RunId)
    (h : (m.map Prod.fst).Nodup) : alookup (delKey m k) k = none := by
  induction m with
  | nil => simp [delKey, alookup]
  | cons hd tl ih =>
    obtain ⟨k', v'⟩ := hd
    simp only [List.map_cons, List.nodup_cons] at h
    by_cases h2 : k' = k
    · simp only [delKey, if_pos h2]
      exact alookup_eq_none_of_not_mem tl k (h2 ▸ h.1)
    · simp [delKey, h2, alookup, ih h.2]

theorem begin_order (st : RunLogger) (r p : RunId) (hp : p ≠ "") :
    (getExecOrder st r (some p)).2 = (alookup st.run_map p).getD 0 + 1 := by
  simp [getExecOrder, hp]

theorem begin_state_parent (st : RunLogger) (r p : RunId) (hp : p ≠ "") :
    alookup (getExecOrder st r (some p)).1.run_map p
      = some (getExecOrder st r (some p)).2 := by
  by_cases h : r = p
  · subst h
    simp only [getExecOrder, if_neg hp]
    rw [alookup_setKey_self]
  · simp only [getExecOrder, if_neg hp]
    rw [alookup_setKey_ne _ _ _ _ (Ne.symm h), alookup_setKey_self]

theorem begin_state_self (st : RunLogger) (r : RunId) (par : Option RunId) :
    alookup (getExecOrder st r par).1.run_map r
      = some (getExecOrder st r par).2 := by
  cases par with
  | none => simp only [getExecOrder]; rw [alookup_setKey_self]
  | some p =>
    by_cases hp : p = ""
    · simp only [getExecOrder, if_pos hp]; rw [alookup_setKey_self]
    · simp only [getExecOrder, if_neg hp]; rw [alookup_setKey_self]

theorem runMap_le_runOp (st : RunLogger) (op : Op) (p : RunId) (v : Nat)
    (hop : ∀ par, op ≠ Op.beginRun p par)
    (hv : alookup st.run_map p = some v) :
    ∃ w, alookup (runOp st op).run_map p = some w ∧ v ≤ w := by
  cases op with
  | beginRun r par =>
    have hr : r ≠ p := by
      intro h
      exact hop par (by rw [h])
    cases par with
    | none =>
      refine ⟨v, ?_, le_refl v⟩
      simp only [runOp, getExecOrder]
      rw [alookup_setKey_ne _ _ _ _ (Ne.symm hr)]
      exact hv
    | some q =>
      by_cases hq : q = ""
      · refine ⟨v, ?_, le_refl v⟩
        simp only [runOp, getExecOrder, if_pos hq]
        rw [alookup_setKey_ne _ _ _ _ (Ne.symm hr)]
        exact hv
      · simp only [runOp, getExecOrder, if_neg hq]
        by_cases hqp : q = p
        · subst hqp
          refine ⟨v + 1, ?_, Nat.le_succ v⟩
          rw [alookup_setKey_ne _ _ _ _ (Ne.symm hr), hv]
          simp only [Option.getD_some]
          rw [alookup_setKey_self]
        · refine ⟨v, ?_, le_refl v⟩
          rw [alookup_setKey_ne _ _ _ _ (Ne.symm hr),
            alookup_setKey_ne _ _ _ _ (Ne.symm hqp)]
          exact hv
  | endRun r =>
    cases h1 : alookup st.run_map r with
    | none =>
      exact ⟨v, by simp only [runOp, updateExecOrder, h1]; exact hv, le_refl v⟩
    | some eo =>
      cases h2 : alookup st.parents r with
      | none =>
        exact ⟨v, by simp only [runOp, updateExecOrder, h1, h2]; exact hv, le_refl v⟩
      | some q =>
        by_cases hq : q = ""
        · exact ⟨v, by simp only [runOp, updateExecOrder, h1, h2, if_pos hq]; exact hv,
            le_refl v⟩
        · cases h3 : alookup st.run_map q with
          | none =>
            exact ⟨v, by simp only [runOp, updateExecOrder, h1, h2, if_neg hq, h3]; exact hv,
              le_refl v⟩
          | some cur =>
            by_cases hqp : q = p
            · subst hqp
              have hcv : cur = v := by
                rw [h3] at hv
                exact Option.some.inj hv
              subst hcv
              refine ⟨max eo cur, ?_, le_max_right eo cur⟩
              simp only [runOp, updateExecOrder, h1, h2, if_neg hq, h3]
              rw [alookup_setKey_self]
            · refine ⟨v, ?_, le_refl v⟩
              simp only [runOp, updateExecOrder, h1, h2, if_neg hq, h3]
              rw [alookup_setKey_ne _ _ _ _ (Ne.symm hqp)]
              exact hv

theorem runMap_le_runOps (p : RunId) (ops : List Op) :
    ∀ (st : RunLogger) (v : Nat), (∀ par, Op.beginRun p par ∉ ops) →
    alookup st.run_map p = some v →
    ∃ w, alookup (runOps st ops).run_map p = some w ∧ v ≤ w := by
  induction ops with
  | nil => exact fun st v _ hv => ⟨v, hv, le_refl v⟩
  | cons op rest ih =>
    intro st v hops hv
    have hop : ∀ par, op ≠ Op.beginRun p par := by
      intro par h
      exact hops par (by rw [← h]; exact List.mem_cons_self op rest)
    obtain ⟨w, hw, hvw⟩ := runMap_le_runOp st op p v hop hv
    have hrest : ∀ par, Op.beginRun p par ∉ rest :=
      fun par h => hops par (List.mem_cons_of_mem _ h)
    obtain ⟨w2, hw2, hww2⟩ := ih (runOp st op) w hrest hw
    exact ⟨w2, by simp only [runOps]; exact hw2, le_trans hvw hww2⟩

theorem beginAll_orders (p : RunId) (hp : p ≠ "") :
    ∀ (cs : List RunId) (st : RunLogger) (k : Nat),
    (alookup st.run_map p).getD 0 = k →
    (beginAll st p cs).2 = countUp (k + 1) cs.length := by
  intro cs
  induction cs with
  | nil => intro st k _; rfl
  | cons c rest ih =>
    intro st k hk
    simp only [beginAll, List.length_cons, countUp]
    have h1 : (getExecOrder st c (some p)).2 = k + 1 := by
      rw [begin_order st c p hp, hk]
    have h2 : (beginAll (getExecOrder st c (some p)).1 p rest).2
        = countUp (k + 1 + 1) rest.length := by
      apply ih
      rw [begin_state_parent st c p hp]
      simp only [Option.getD_some]
      exact h1
    rw [h1, h2]

/-- C1 (amended): for a sequence of `N` `begin` calls that all pass the same
nonempty `parent_run_id` `p`, executed consecutively from a state whose
counter table has no entry for `p`, the `N` returned `execution_order`
values are exactly the positive integers `1..N` in call order, with no gaps
or repeats.  (The original claim, which allows an arbitrary prior state and
arbitrary interleaved begin/end calls for other parents, is refuted by
`begins_same_parent_counterexample`: any interleaved call that writes `p`'s
entry of the shared counter table shifts the sequence.) -/
theorem begins_fresh_parent_orders_one_to_n (st : RunLogger) (p : RunId)
    (cs : List RunId) (hp : p ≠ "")
    (hfresh : alookup st.run_map p = none) :
    (beginAll st p cs).2 = countUp 1 cs.length := by
  apply beginAll_orders p hp
  rw [hfresh]
  rfl

/-- C1 counterexample: the claim fails as stated.  The `begin` calls passing
parent `"p"` are the first and the last; the three interleaved calls all
pass parent `"q" ≠ "p"` (one of them begins the run `"p"` itself under
`"q"`, an ordinary nested trace).  The claim demands returned orders
`[1, 2]`; the code returns `1` and then `4`. -/
theorem begins_same_parent_counterexample :
    (getExecOrder RunLogger.init "c1" (some "p")).2 = 1
    ∧ (getExecOrder (runOps RunLogger.init
        [Op.beginRun "c1" (some "p"), Op.beginRun "x" (some "q"),
         Op.beginRun "y" (some "q"), Op.beginRun "p" (some "q")])
        "c2" (some "p")).2 = 4 :=
  ⟨rfl, rfl⟩

/-- Witness for `begins_fresh_parent_orders_one_to_n` at a concrete input. -/
theorem begins_fresh_parent_orders_one_to_n_witness :
    ("p" : RunId) ≠ ""
    ∧ alookup RunLogger.init.run_map "p" = none
    ∧ (beginAll RunLogger.init "p" ["a", "b", "c"]).2
        = countUp 1 (["a", "b", "c"] : List RunId).length :=
  ⟨by decide, rfl,
    begins_fresh_parent_orders_one_to_n RunLogger.init "p" ["a", "b", "c"]
      (by decide) rfl⟩

/-- C2 (amended): after `begin(child, p)` (`p` nonempty) followed by any call
sequence `t2` that contains `end(child)` and in which the run `p` itself is
not begun, a subsequently begun sibling under `p` receives an
`execution_order` strictly greater than the order that was assigned to
`child`.  (Without the proviso on `t2` the claim is refuted by
`sibling_after_end_counterexample`: beginning `p` itself resets the shared
counter entry the siblings are numbered from.) -/
theorem sibling_after_end_gets_greater_order
    (st0 : RunLogger) (t2 : List Op) (child sib p : RunId)
    (hp : p ≠ "")
    (hnb : ∀ par, Op.beginRun p par ∉ t2)
    (_hend : Op.endRun child ∈ t2) :
    (getExecOrder st0 child (some p)).2
      < (getExecOrder (runOps (getExecOrder st0 child (some p)).1 t2)
          sib (some p)).2 := by
  have h1 : alookup (getExecOrder st0 child (some p)).1.run_map p
      = some (getExecOrder st0 child (some p)).2 :=
    begin_state_parent st0 child p hp
  obtain ⟨w, hw, hvw⟩ := runMap_le_runOps p t2 _ _ hnb h1
  rw [begin_order _ sib p hp, hw]
  simp only [Option.getD_some]
  exact Nat.lt_succ_of_le hvw

/-- C2 counterexample: `begin(c1, p) = 1`, `begin(c2, p) = 2`, `end(c2)`,
then a first (root) `begin` of `p` itself, then `begin(s, p)`.  The sibling
`s`, begun after `c2` was ended, receives order `2`, not strictly greater
than the `2` assigned to `c2`. -/
theorem sibling_after_end_counterexample :
    (getExecOrder (runOps RunLogger.init [Op.beginRun "c1" (some "p")])
        "c2" (some "p")).2 = 2
    ∧ (getExecOrder (runOps RunLogger.init
        [Op.beginRun "c1" (some "p"), Op.beginRun "c2" (some "p"),
         Op.endRun "c2", Op.beginRun "p" none]) "s" (some "p")).2 = 2 :=
  ⟨rfl, rfl⟩

/-- Witness for `sibling_after_end_gets_greater_order` at a concrete input. -/
theorem sibling_after_end_gets_greater_order_witness :
    ("p" : RunId) ≠ ""
    ∧ Op.endRun "c" ∈ [Op.endRun "c"]
    ∧ (getExecOrder RunLogger.init "c" (some "p")).2
      < (getExecOrder (runOps (getExecOrder RunLogger.init "c" (some "p")).1
          [Op.endRun "c"]) "s" (some "p")).2 :=
  ⟨by decide, by simp,
    sibling_after_end_gets_greater_order RunLogger.init [Op.endRun "c"] "c" "s" "p"
      (by decide)
      (by intro par h; simp at h)
      (by simp)⟩

/-- C3: for a run `r` begun with a recorded (truthy) parent `p` that has a
counter entry `cur`, `end(r)` succeeds, sets `p`'s counter entry to
`max(r's stored order, cur)` while removing `r`'s parent linkage, leaves
`p`'s counter at least `r`'s stored order, and changes no counter entry
other than `p`'s. -/
theorem end_raises_parent_counter_to_max
    (st : RunLogger) (r p : RunId) (eo cur : Nat)
    (hr : alookup st.run_map r = some eo)
    (hpar : alookup st.parents r = some p)
    (hp : p ≠ "")
    (hcur : alookup st.run_map p = some cur) :
    updateExecOrder st r
      = .ok { run_map := setKey st.run_map p (max eo cur),
              parents := delKey st.parents r }
    ∧ alookup (setKey st.run_map p (max eo cur)) p = some (max eo cur)
    ∧ eo ≤ max eo cur
    ∧ ∀ q, q ≠ p →
        alookup (setKey st.run_map p (max eo cur)) q = alookup st.run_map q := by
  refine ⟨?_, alookup_setKey_self _ _ _, le_max_left eo cur, ?_⟩
  · simp only [updateExecOrder, hr, hpar, if_neg hp, hcur]
  · intro q hq
    exact alookup_setKey_ne _ _ _ _ hq

/-- Witness for `end_raises_parent_counter_to_max` at a concrete input. -/
theorem end_raises_parent_counter_to_max_witness :
    alookup ({ run_map := [("p", 2), ("c", 2)],
               parents := [("c", "p")] } : RunLogger).run_map "c" = some 2
    ∧ updateExecOrder { run_map := [("p", 2), ("c", 2)], parents := [("c", "p")] } "c"
      = .ok { run_map := setKey [("p", 2), ("c", 2)] "p" (max 2 2),
              parents := delKey [("c", "p")] "c" } :=
  ⟨rfl, (end_raises_parent_counter_to_max
    { run_map := [("p", 2), ("c", 2)], parents := [("c", "p")] }
    "c" "p" 2 2 rfl rfl (by decide) rfl).1⟩

/-- C4: a `begin` with `parent_run_id` absent returns `execution_order` 1
and stores 1 for the run id, whatever the prior tracker state. -/
theorem root_begin_order_one (st : RunLogger) (r : RunId) :
    (getExecOrder st r none).2 = 1
    ∧ alookup (getExecOrder st r none).1.run_map r = some 1 := by
  refine ⟨rfl, ?_⟩
  simp only [getExecOrder]
  exact alookup_setKey_self _ _ _

theorem end_no_parent_entry (st : RunLogger) (r : RunId) (eo : Nat)
    (h1 : alookup st.run_map r = some eo)
    (h2 : alookup st.parents r = none) :
    updateExecOrder st r = .ok st := by
  simp only [updateExecOrder, h1, h2, delKey_eq_of_alookup_none _ _ h2]

/-- C5 (amended): a second `begin` for an id already begun does not fail —
the code has no duplicate detection — it runs the ordinary begin logic
again: a root re-begin returns 1, overwrites the stored order with 1, and
leaves any stale parent linkage in place.  (The original claim, that the
second call fails with `DuplicateRunError` leaving the tables unchanged, is
refuted by `duplicate_begin_counterexample`.) -/
theorem second_begin_overwrites (st : RunLogger) (r : RunId) (o : Nat)
    (_h : alookup st.run_map r = some o) :
    (getExecOrder st r none).2 = 1
    ∧ alookup (getExecOrder st r none).1.run_map r = some 1
    ∧ (getExecOrder st r none).1.parents = st.parents := by
  refine ⟨rfl, ?_, rfl⟩
  simp only [getExecOrder]
  exact alookup_setKey_self _ _ _

/-- C5 counterexample: begun twice with the same id and parent, the second
call returns normally (order 2) and mutates both tables instead of failing:
no `DuplicateRunError` exists in the code. -/
theorem duplicate_begin_counterexample :
    getExecOrder (getExecOrder RunLogger.init "a" (some "p")).1 "a" (some "p")
      = ({ run_map := [("p", 2), ("a", 2)], parents := [("a", "p")] }, 2) :=
  rfl

/-- Witness for `second_begin_overwrites` at a concrete input. -/
theorem second_begin_overwrites_witness :
    alookup ({ run_map := [("a", 1)], parents := [] } : RunLogger).run_map "a" = some 1
    ∧ (getExecOrder { run_map := [("a", 1)], parents := [] } "a" none).2 = 1
    ∧ alookup (getExecOrder { run_map := [("a", 1)], parents := [] } "a" none).1.run_map "a"
        = some 1
    ∧ (getExecOrder { run_map := [("a", 1)], parents := [] } "a" none).1.parents
        = ({ run_map := [("a", 1)], parents := [] } : RunLogger).parents :=
  ⟨rfl, second_begin_overwrites { run_map := [("a", 1)], parents := [] } "a" 1 rfl⟩

/-- C6 (amended): `end` on a run id with no counter-table entry fails — the
code raises `KeyError(run_id)` on its first line, the failure the
specification names `UnknownRunError` — and the dictionary state carried at
the raise is exactly the unchanged state.  The original claim's "never
passed to begin" condition is wider: an id never begun can still hold a
counter entry, namely when it was referenced as the parent of a begun
child, and `end` on it then silently succeeds (refuted by
`end_never_begun_parent_counterexample`). -/
theorem end_unknown_id_fails_state_unchanged (st : RunLogger) (r : RunId)
    (h : alookup st.run_map r = none) :
    updateExecOrder st r = .error ⟨r, st⟩ := by
  simp only [updateExecOrder, h]

/-- C6 counterexample: the id `"r"` is never passed to `begin`, yet after
`begin("c", parent="r")` — which creates `_run_map["r"] = 1` — calling
`end("r")` does not fail: it returns successfully with both tables
unchanged, instead of raising the failure the claim requires. -/
theorem end_never_begun_parent_counterexample :
    updateExecOrder (runOps RunLogger.init [Op.beginRun "c" (some "r")]) "r"
      = .ok { run_map := [("r", 1), ("c", 1)], parents := [("c", "r")] } :=
  rfl

/-- Witness for `end_unknown_id_fails_state_unchanged` at a concrete input. -/
theorem end_unknown_id_fails_state_unchanged_witness :
    alookup RunLogger.init.run_map "x" = none
    ∧ updateExecOrder RunLogger.init "x" = .error ⟨"x", RunLogger.init⟩ :=
  ⟨rfl, end_unknown_id_fails_state_unchanged RunLogger.init "x" rfl⟩

/-- C7 (amended): a second `end` on an id whose first `end` succeeded does
not fail: the first `end` removed the parent linkage, so the second call
finds the still-present counter entry, pops nothing, performs no parent
bookkeeping and returns successfully with the state unchanged — a silent
no-op, not an `AlreadyClosedError`.  (The original claim is refuted by
`end_twice_counterexample`.)  The `Nodup` hypothesis states that the parent
table has no duplicate keys, which holds for every state a Python `dict`
can be in. -/
theorem second_end_is_silent_noop (st st' : RunLogger) (r : RunId)
    (hnd : (st.parents.map Prod.fst).Nodup)
    (h : updateExecOrder st r = .ok st') :
    updateExecOrder st' r = .ok st' := by
  cases h1 : alookup st.run_map r with
  | none =>
    simp only [updateExecOrder, h1] at h
    exact Except.noConfusion h
  | some eo =>
    cases h2 : alookup st.parents r with
    | none =>
      simp only [updateExecOrder, h1, h2, Except.ok.injEq] at h
      subst h
      exact end_no_parent_entry _ r eo h1 (alookup_delKey_eq_none _ _ hnd)
    | some p =>
      by_cases hp : p = ""
      · simp only [updateExecOrder, h1, h2, if_pos hp, Except.ok.injEq] at h
        subst h
        exact end_no_parent_entry _ r eo h1 (alookup_delKey_eq_none _ _ hnd)
      · cases h3 : alookup st.run_map p with
        | none =>
          simp only [updateExecOrder, h1, h2, if_neg hp, h3] at h
          exact Except.noConfusion h
        | some cur =>
          simp only [updateExecOrder, h1, h2, if_neg hp, h3, Except.ok.injEq] at h
          subst h
          by_cases hrp : r = p
          · subst hrp
            exact end_no_parent_entry _ r (max eo cur)
              (alookup_setKey_self _ _ _) (alookup_delKey_eq_none _ _ hnd)
          · exact end_no_parent_entry _ r eo
              (by rw [alookup_setKey_ne _ _ _ _ hrp]; exact h1)
              (alookup_delKey_eq_none _ _ hnd)

/-- C7 counterexample: after `begin(a)`, `begin(b, a)` and a first
`end(b)` — which succeeds and yields the shown state — a second `end(b)`
on that state succeeds again with the state unchanged, instead of failing
with `AlreadyClosedError`. -/
theorem end_twice_counterexample :
    updateExecOrder (runOps RunLogger.init
        [Op.beginRun "a" none, Op.beginRun "b" (some "a")]) "b"
      = .ok { run_map := [("a", 2), ("b", 2)], parents := [] }
    ∧ updateExecOrder { run_map := [("a", 2), ("b", 2)], parents := [] } "b"
      = .ok { run_map := [("a", 2), ("b", 2)], parents := [] } :=
  ⟨rfl, rfl⟩

/-- Witness for `second_end_is_silent_noop` at a concrete input. -/
theorem second_end_is_silent_noop_witness :
    (([("b", "a")] : List (RunId × RunId)).map Prod.fst).Nodup
    ∧ updateExecOrder { run_map := [("b", 1), ("a", 1)], parents := [("b", "a")] } "b"
      = .ok { run_map := [("b", 1), ("a", 1)], parents := [] }
    ∧ updateExecOrder { run_map := [("b", 1), ("a", 1)], parents := [] } "b"
      = .ok { run_map := [("b", 1), ("a", 1)], parents := [] } :=
  ⟨by decide, rfl,
    second_end_is_silent_noop
      { run_map := [("b", 1), ("a", 1)], parents := [("b", "a")] }
      { run_map := [("b", 1), ("a", 1)], parents := [] } "b" (by decide) rfl⟩

/-- C8: `end` on a run id that has a counter entry but no parent-table
entry returns without raising and leaves both tables exactly unchanged — a
silent no-op. -/
theorem end_unparented_run_is_noop (st : RunLogger) (r : RunId) (eo : Nat)
    (h1 : alookup st.run_map r = some eo)
    (h2 : alookup st.parents r = none) :
    updateExecOrder st r = .ok st :=
  end_no_parent_entry st r eo h1 h2

/-- Witness for `end_unparented_run_is_noop` at a concrete input. -/
theorem end_unparented_run_is_noop_witness :
    alookup ({ run_map := [("a", 1)], parents := [] } : RunLogger).run_map "a" = some 1
    ∧ alookup ({ run_map := [("a", 1)], parents := [] } : RunLogger).parents "a" = none
    ∧ updateExecOrder { run_map := [("a", 1)], parents := [] } "a"
      = .ok { run_map := [("a", 1)], parents := [] } :=
  ⟨rfl, rfl, end_unparented_run_is_noop { run_map := [("a", 1)], parents := [] } "a" 1 rfl rfl⟩

/-- C9: a single `begin` or `end` call can mutate only the counter entries
of the run it is invoked for and of that run's direct parent (the passed
parent for `begin`, the recorded parent for `end`); the stored order of
every other run id is identical before and after the call. -/
theorem op_touches_own_and_parent_only (st : RunLogger) (op : Op) (q : RunId)
    (hq1 : q ≠ opRunId op)
    (hq2 : opParent st op ≠ some q) :
    alookup (runOp st op).run_map q = alookup st.run_map q := by
  cases op with
  | beginRun r par =>
    have hqr : q ≠ r := hq1
    cases par with
    | none =>
      simp only [runOp, getExecOrder]
      exact alookup_setKey_ne _ _ _ _ hqr
    | some p =>
      have hqp : q ≠ p := by
        intro h
        exact hq2 (by rw [h]; rfl)
      by_cases hp : p = ""
      · simp only [runOp, getExecOrder, if_pos hp]
        exact alookup_setKey_ne _ _ _ _ hqr
      · simp only [runOp, getExecOrder, if_neg hp]
        rw [alookup_setKey_ne _ _ _ _ hqr, alookup_setKey_ne _ _ _ _ hqp]
  | endRun r =>
    cases h1 : alookup st.run_map r with
    | none => simp only [runOp, updateExecOrder, h1]
    | some eo =>
      cases h2 : alookup st.parents r with
      | none => simp only [runOp, updateExecOrder, h1, h2]
      | some p =>
        have hqp : q ≠ p := by
          intro h
          apply hq2
          simp only [opParent, h2, h]
        by_cases hp : p = ""
        · simp only [runOp, updateExecOrder, h1, h2, if_pos hp]
        · cases h3 : alookup st.run_map p with
          | none => simp only [runOp, updateExecOrder, h1, h2, if_neg hp, h3]
          | some cur =>
            simp only [runOp, updateExecOrder, h1, h2, if_neg hp, h3]
            exact alookup_setKey_ne _ _ _ _ hqp

/-- Witness for `op_touches_own_and_parent_only` at a concrete input. -/
theorem op_touches_own_and_parent_only_witness :
    ("c" : RunId) ≠ opRunId (Op.beginRun "a" (some "b"))
    ∧ opParent { run_map := [("c", 5)], parents := [] } (Op.beginRun "a" (some "b"))
        ≠ some "c"
    ∧ alookup (runOp { run_map := [("c", 5)], parents := [] }
          (Op.beginRun "a" (some "b"))).run_map "c"
      = alookup ({ run_map := [("c", 5)], parents := [] } : RunLogger).run_map "c" :=
  ⟨by decide, by decide,
    op_touches_own_and_parent_only { run_map := [("c", 5)], parents := [] }
      (Op.beginRun "a" (some "b")) "c" (by decide) (by decide)⟩

/-- C10: if the parent `p` (nonempty) is itself begun — returning order
`o_p` — and afterwards, with `p` not begun a second time in between, a
child is begun under `p`, that child's returned order is strictly greater
than `o_p`: the child is seeded from `p`'s shared counter entry, which
starts at `o_p` and never decreases, plus one, so assigned orders strictly
increase along every root-to-descendant chain. -/
theorem child_order_exceeds_parent_order
    (st0 : RunLogger) (t2 : List Op) (p c : RunId) (par : Option RunId)
    (hp : p ≠ "")
    (hnb : ∀ q, Op.beginRun p q ∉ t2) :
    (getExecOrder st0 p par).2
      < (getExecOrder (runOps (getExecOrder st0 p par).1 t2) c (some p)).2 := by
  have h1 : alookup (getExecOrder st0 p par).1.run_map p
      = some (getExecOrder st0 p par).2 :=
    begin_state_self st0 p par
  obtain ⟨w, hw, hvw⟩ := runMap_le_runOps p t2 _ _ hnb h1
  rw [begin_order _ c p hp, hw]
  simp only [Option.getD_some]
  exact Nat.lt_succ_of_le hvw

/-- Witness for `child_order_exceeds_parent_order` at a concrete input. -/
theorem child_order_exceeds_parent_order_witness :
    ("p" : RunId) ≠ ""
    ∧ (getExecOrder RunLogger.init "p" none).2
      < (getExecOrder (runOps (getExecOrder RunLogger.init "p" none).1 [])
          "c" (some "p")).2 :=
  ⟨by decide,
    child_order_exceeds_parent_order RunLogger.init [] "p" "c" none
      (by decide) (by intro q h; simp at h)⟩
